import Mathlib

/-!
Verification development for the courier repository.

Part 1 models the runtime response envelope and dispatcher
(`src/pkg/courierhttp/payload.go`): the `response[T]` struct, the
`Wrap`/`With*` configuration helpers, and `response.WriteResponse`.

Part 2 models the OpenAPI document scanner (`scanner` in the `openapi`
package): `patchPath`, `RegisterSchema`, `scanResponse`,
`scanParameterOrRequestBody`.

Go `any` values are modelled by a structure recording which optional
capabilities the value implements (the dispatcher and scanner only ever
query values through dynamic interface assertions, so a value is fully
characterised, for this code, by which capabilities it has and what they
return).  Machine integers never get near overflow here, so Go `int`
becomes `Int`.  Panics and returned errors both become `Except.error`.
-/

namespace Courierhttp

/-- a cookie, `*http.Cookie` kept abstract: only identity matters here. -/
structure Cookie where
  name : String
  value : String
deriving DecidableEq

/-- Model of a non-nil Go `any` value as seen by the dispatcher: which of
the optional capabilities of `payload.go` it implements and what they
return.  `statusCap` is `StatusCodeDescriber` (`StatusCode() int`),
`locationCap` is the `Location() *url.URL` method (a value implements
`RedirectDescriber` exactly when it has both, since `RedirectDescriber`
embeds `StatusCodeDescriber`), `contentTypeCap` is `ContentTypeDescriber`,
`isResponseWriter` is the `ResponseWriter` interface, `isResult` is
`courier.Result`, `isReader` is `io.Reader`.  `errStatus`/`errSummary`
carry what the external error-to-status collaborator would derive when
the value `isError`. -/
structure Value where
  isResponseWriter : Bool
  isError : Bool
  statusCap : Option Int
  locationCap : Option String
  contentTypeCap : Option String
  isResult : Bool
  isReader : Bool
  errStatus : Int
  errSummary : String
deriving DecidableEq

/-- Modelled from the spec: `statuserror.FromErr` (package
`pkg/statuserror`, not under `src/`) converts an error into a structured
status error carrying a status code and a machine summary.  The converted
value exposes the status-code capability (its mapped status) and none of
the other dispatch capabilities. -/
def fromErr (v : Value) : Value :=
  { v with
    statusCap := some v.errStatus
    locationCap := none
    contentTypeCap := none
    isResult := false
    isReader := false }

/-- `payload.go` line 180: if the wrapped value is an error it is first
converted through `statuserror.FromErr`; otherwise it is used as is. -/
def converted (v : Value) : Value :=
  if v.isError then fromErr v else v

/-- The `response[T]` struct of `payload.go`: the wrapped value `v`
(`none` models the nil interface, both for a wrapped nil and for the
released state), plus the explicit overrides.  Go zero values: empty
lists, `none`, `""`, `0`. -/
structure RespState where
  v : Option Value
  meta : List (String × List String)
  cookies : List (Option Cookie)
  location : Option String
  contentType : String
  statusCode : Int
deriving DecidableEq

/-- the `ResponseSettingFunc` values produced by the four `With*` helpers
of `payload.go` (`WithStatusCode`, `WithContentType`, `WithMetadata`,
`WithCookies`). -/
inductive Setting where
  | statusCode (code : Int)
  | contentType (ct : String)
  | metadata (key : String) (values : List String)
  | cookies (cs : List (Option Cookie))
deriving DecidableEq

/-- `SetMetadata`: Go map assignment `r.meta[key] = values` — overwrite
the entry for `key` if present, otherwise add it. -/
def setMeta (meta : List (String × List String)) (key : String)
    (values : List String) : List (String × List String) :=
  if meta.any (fun kv => kv.1 = key) then
    meta.map (fun kv => if kv.1 = key then (key, values) else kv)
  else
    meta ++ [(key, values)]

/-- applying one `ResponseSettingFunc` to the envelope (the four
`Set*` methods reached through the `With*` helpers). -/
def applySetting (r : RespState) : Setting → RespState
  | .statusCode c => { r with statusCode := c }
  | .contentType ct => { r with contentType := ct }
  | .metadata k vs => { r with meta := setMeta r.meta k vs }
  | .cookies cs => { r with cookies := cs }

/-- `Wrap[T](v, opts...)`: build the envelope with Go zero values and
apply the configuration functions in order. -/
def Wrap (v : Option Value) (opts : List Setting) : RespState :=
  opts.foldl applySetting
    { v := v, meta := [], cookies := [], location := none,
      contentType := "", statusCode := 0 }

/-- `response.Underlying`: reads the internal wrapped value. -/
def Underlying (r : RespState) : Option Value :=
  r.v

/-- the request as consulted by the dispatcher: only `Method()` (and the
underlying request for redirects, which carries no data we need). -/
structure Req where
  method : String
deriving DecidableEq

/-- the terminal body-writing step of `WriteResponse`: `courier.Result`
self-serialisation, `io.Reader` copy, or the MIME codec (`transformer`)
keyed by the effective content type, with the resolved status. -/
inductive BodyStep where
  | resultInto (status : Int)
  | streamCopy (status : Int)
  | encode (status : Int) (mime : String)
deriving DecidableEq

/-- the status written by a body step. -/
def BodyStep.status : BodyStep → Int
  | .resultInto s => s
  | .streamCopy s => s
  | .encode s _ => s

/-- how a `WriteResponse` call ends: delegation to a self-describing
responder, a redirect, the bare 204 status line, or a body write (with
the `Content-Type` header the dispatcher itself set, if any). -/
inductive FinalStep where
  | delegated
  | redirected (status : Int) (location : String)
  | noContent
  | body (contentTypeHeader : Option String) (step : BodyStep)
deriving DecidableEq

/-- the response status resolved by the dispatcher (`none` when it
delegated and resolved nothing). -/
def FinalStep.statusOut : FinalStep → Option Int
  | .delegated => none
  | .redirected s _ => some s
  | .noContent => some 204
  | .body _ b => some b.status

/-- everything `WriteResponse` emits on the transport: the metadata
headers, the non-nil cookies, and the final step. -/
structure Output where
  headerMeta : List (String × List String)
  cookiesSet : List Cookie
  final : FinalStep
deriving DecidableEq

/-- `payload.go` lines 184–186: if the (converted) value implements
`StatusCodeDescriber`, adopt its status — unconditionally. -/
def adoptStatusCap (resp : Option Value) (r : RespState) : RespState :=
  match resp with
  | some w =>
    match w.statusCap with
    | some sc => { r with statusCode := sc }
    | none => r
  | none => r

/-- `payload.go` lines 188–198: while the status is still unset (0), a
nil value gives 204, otherwise POST gives 201 and anything else 200. -/
def inferStatus (resp : Option Value) (req : Req) (r : RespState) : RespState :=
  if r.statusCode = 0 then
    match resp with
    | none => { r with statusCode := 204 }
    | some _ =>
      if req.method = "POST" then { r with statusCode := 201 }
      else { r with statusCode := 200 }
  else r

/-- `payload.go` lines 200–205: when no location was set and the value
implements `RedirectDescriber` (both `StatusCode()` and `Location()`),
adopt its status and location. -/
def adoptRedirect (resp : Option Value) (r : RespState) : RespState :=
  if r.location = none then
    match resp with
    | some w =>
      match w.statusCap, w.locationCap with
      | some sc, some loc =>
        { r with statusCode := sc, location := some loc }
      | _, _ => r
    | none => r
  else r

/-- `payload.go` lines 223–263: redirect when a location is resolved;
bare status line for 204; otherwise write the explicit content type (if
any) and the body by the value's dynamic shape, handing anything that is
neither a `courier.Result` nor an `io.Reader` to the MIME codec keyed by
the effective content type. -/
def finalStep (resp : Option Value) (r : RespState) : FinalStep :=
  match r.location with
  | some loc => FinalStep.redirected r.statusCode loc
  | none =>
    if r.statusCode = 204 then FinalStep.noContent
    else
      let hdr := if r.contentType = "" then none else some r.contentType
      match resp with
      | some w =>
        if w.isResult then FinalStep.body hdr (.resultInto r.statusCode)
        else if w.isReader then FinalStep.body hdr (.streamCopy r.statusCode)
        else FinalStep.body hdr (.encode r.statusCode r.contentType)
      | none => FinalStep.body hdr (.encode r.statusCode r.contentType)

/-- `payload.go` lines 178–263, after the responder check: `resp` is the
(error-converted) wrapped value, `none` for the nil interface.  Status
adoption, inference and redirect adoption run in source order; then the
metadata headers (keys canonicalised by an external library call,
modelled as identity) and the non-nil cookies are emitted, and the final
step runs.  The deferred `r.v = nil` release applies to the state. -/
def dispatch (resp : Option Value) (r1 : RespState) (req : Req) :
    Output × RespState :=
  let r4 := adoptRedirect resp (inferStatus resp req (adoptStatusCap resp r1))
  ({ headerMeta := r4.meta, cookiesSet := r4.cookies.filterMap id,
     final := finalStep resp r4 },
   { r4 with v := none })

/-- `response.WriteResponse` (`payload.go` lines 169–265).  The deferred
`r.v = nil` release applies on every path; a wrapped value implementing
`ResponseWriter` gets full delegation before anything else. -/
def WriteResponse (r : RespState) (req : Req) : Output × RespState :=
  match r.v with
  | some w =>
    if w.isResponseWriter then
      ({ headerMeta := [], cookiesSet := [], final := .delegated },
       { r with v := none })
    else
      dispatch (some (converted w)) r req
  | none => dispatch none r req

end Courierhttp

namespace OpenapiScan

/-- Structural schemas.  The JSON-Schema data structures live in the
`pkg/openapi/jsonschema` package (not under `src/`, and declared an
external collaborator by the spec); for the scanner only three shapes
matter: an opaque structural schema, a description-only fragment
(`SchemaBasic{Description: ...}`), and `jsonschema.AllOf` of the two. -/
inductive JSONSchema where
  | structural (id : Nat)
  | descOnly (description : String)
  | allOf (a b : JSONSchema)
deriving DecidableEq

/-- `openapi.MediaType`: Modelled from the spec: per content type, a
schema (possibly absent). -/
structure MediaType where
  schema : Option JSONSchema
deriving DecidableEq

/-- `openapi.Response`: Modelled from the spec: "per status code,
content-type → {schema, extension metadata such as grouped error
summaries}". -/
structure Response where
  content : List (String × MediaType)
  extensions : List (String × List String)
deriving DecidableEq

/-- `openapi.Parameter`: Modelled from the spec: "name, location
(path|query|header|cookie), schema, required flag". -/
structure Parameter where
  In : String
  name : String
  schema : Option JSONSchema
  required : Bool
deriving DecidableEq

/-- `openapi.RequestBody`: Modelled from the spec: the operation's
single request-body container, content keyed by content-type name. -/
structure RequestBody where
  description : String
  required : Bool
  content : List (String × MediaType)
deriving DecidableEq

/-- Go-map keyed insert used for content maps and response maps:
overwrite the entry if the key is present, append it otherwise. -/
def mapSet {α : Type} (m : List (String × α)) (k : String) (v : α) :
    List (String × α) :=
  if m.any (fun kv => kv.1 = k) then
    m.map (fun kv => if kv.1 = k then (k, v) else kv)
  else
    m ++ [(k, v)]

/-- `openapi.Operation`: Modelled from the spec: operation id, summary
and the rest of the documentation fields are irrelevant to these claims
except tags; ordered parameter list, optional request body, responses
keyed by status code. -/
structure Operation where
  operationId : String
  tags : List String
  parameters : List Parameter
  requestBody : Option RequestBody
  responses : List (Int × Response)
deriving DecidableEq

/-- the loop of `patchPath` over `operation.Parameters`: is a path
parameter of this exact name declared on the operation? -/
def isParameterDefined (operation : Operation) (name : String) : Bool :=
  operation.parameters.any fun parameter =>
    parameter.In == "path" && parameter.name == name

/-- character-level engine of `patchPath`: the regex `/[*:]([^/]+)` with
`ReplaceAllStringFunc`.  A match is a slash, a marker (`:` or `*`) and a
maximal nonempty run of non-slash characters (the name); matched
segments become `/{name}` when declared, the literal `/0` otherwise;
scanning resumes after the match. -/
def patchPathChars (operation : Operation) : List Char → List Char
  | [] => []
  | [c] => [c]
  | c :: m :: rest =>
    let name := rest.takeWhile (fun d => d != '/')
    if c = '/' ∧ (m = ':' ∨ m = '*') ∧ name ≠ [] then
      (if isParameterDefined operation name.asString then
        '/' :: '\x7b' :: (name ++ ['\x7d'])
      else
        ['/', '0'])
        ++ patchPathChars operation (rest.dropWhile (fun d => d != '/'))
    else
      c :: patchPathChars operation (m :: rest)
termination_by l => l.length
decreasing_by
  · have h := (List.dropWhile_sublist (l := rest) (fun d => d != '/')).length_le
    simp only [List.length_cons]
    omega
  · simp only [List.length_cons]
    omega

/-- `scanner.patchPath` (`part_000` lines 158–178). -/
def patchPath (openapiPath : String) (operation : Operation) : String :=
  (patchPathChars operation openapiPath.toList).asString

/-- splitting a path into its `/`-separated segments (the empty path
gives the single empty segment, so the result is never empty). -/
def splitOnSlash : List Char → List (List Char)
  | [] => [[]]
  | c :: cs =>
    let r := splitOnSlash cs
    if c = '/' then [] :: r
    else
      match r with
      | [] => [[c]]
      | h :: t => (c :: h) :: t

/-- joining segments back with `/` (inverse of `splitOnSlash`). -/
def joinSlash : List (List Char) → List Char
  | [] => []
  | [s] => s
  | s :: rest => s ++ '/' :: joinSlash rest

/-- Stated from the claim's words, as the second definition of the path
rule to be compared with the source's `patchPath`: a segment in router
path-parameter syntax — a marker character `:` or `*` followed by a
bare (nonempty) name — is rewritten to the brace-delimited `{name}`
exactly when the operation declares a path parameter of that exact
name, and to the fixed literal `0` otherwise; any other segment is
kept unchanged. -/
def rewriteSegment (operation : Operation) (seg : List Char) : List Char :=
  match seg with
  | m :: c :: cs =>
    if m = ':' ∨ m = '*' then
      if isParameterDefined operation ((c :: cs).asString) then
        '\x7b' :: ((c :: cs) ++ ['\x7d'])
      else ['0']
    else seg
  | _ => seg

/-- the claim's segment-wise reading of path translation on characters:
every segment after a `/` is rewritten by `rewriteSegment`; the first
segment is not preceded by a `/`, so it can never be a match of the
regex `/[*:]([^/]+)` and is kept. -/
def patchSegmentsChars (operation : Operation) (l : List Char) : List Char :=
  match splitOnSlash l with
  | [] => []
  | first :: rest => joinSlash (first :: rest.map (rewriteSegment operation))

/-- the claim-side path translation: split on `/`, rewrite each
following segment by the declared-parameter rule, join back. -/
def patchPathSegmentwise (openapiPath : String) (operation : Operation) : String :=
  (patchSegmentsChars operation openapiPath.toList).asString

/-- Go's `strings.TrimLeft(s, cutset)`: drop leading characters that are
members of the cutset (a character set, not a whole prefix). -/
def goTrimLeft (s : String) (cutset : String) : String :=
  (s.toList.dropWhile (fun c => cutset.toList.contains c)).asString

/-- the component-schema key computed by `RegisterSchema`:
`strings.TrimLeft(ref, "#/components/schemas/")`. -/
def schemaNameOf (ref : String) : String :=
  goTrimLeft ref "#/components/schemas/"

/-- `scanner.RegisterSchema` (`part_000` lines 184–196): first
registration for a computed name wins; a later registration under the
same name is dropped (the source only prints a console notice) and never
fails.  `b.o.Components.Schemas` is the insertion-ordered map modelled
as an association list with unique keys. -/
def RegisterSchema (schemas : List (String × JSONSchema)) (ref : String)
    (s : JSONSchema) : List (String × JSONSchema) :=
  let n := schemaNameOf ref
  if schemas.any (fun kv => kv.1 = n) then schemas
  else schemas ++ [(n, s)]

/-- folding a whole sequence of registrations into an empty registry. -/
def registerAll (regs : List (String × JSONSchema)) :
    List (String × JSONSchema) :=
  regs.foldl (fun m r => RegisterSchema m r.1 r.2) []

/-- map lookup in the components.schemas registry. -/
def lookupSchema (schemas : List (String × JSONSchema)) (n : String) :
    Option JSONSchema :=
  (schemas.find? (fun kv => kv.1 = n)).map (fun kv => kv.2)

/-- Go's `strings.Split(s, ",")` on the character level: split at every
comma; the empty string yields `[[]]`, so the result is never empty. -/
def splitOnComma : List Char → List (List Char)
  | [] => [[]]
  | c :: cs =>
    let r := splitOnComma cs
    if c = ',' then [] :: r
    else
      match r with
      | [] => [[c]]
      | h :: t => (c :: h) :: t

/-- `tagValueAndFlagsByTagString` (`part_000` lines 337–347): the value
before the first comma, then the flags.  (`strings.Split` never returns
an empty slice, so the empty tag string yields value `""`.) -/
def tagValueAndFlagsByTagString (tagString : String) : String × List String :=
  match (splitOnComma tagString.toList).map List.asString with
  | [] => ("", [])
  | v :: flags => (v, flags)

/-- one struct field of an operator's input type, as surfaced by
`typesx.EachField` plus the per-field collaborator results:
`displayName` is the display name from the `name` tag, `omitempty` its
omit-if-empty flag, `inTag`/`mimeTag` the raw struct tags, `codec` the
first name of the transformer resolved for (field type, mime) — `none`
models a failed `transformer.NewTransformer` (an external-collaborator
error that panics the build) — `schema` the result of the external
schema extractor, and `doc` the `RuntimeDoc(fieldName)` lines when the
owning type has that capability and reports ok. -/
structure StructField where
  name : String
  displayName : String
  omitempty : Bool
  inTag : String
  mimeTag : String
  codec : Option String
  schema : Option JSONSchema
  doc : Option (List String)
deriving DecidableEq

/-- `scanner.scanParameterOrRequestBody` (`part_000` lines 275–335),
one field at a time in declaration order.  Panics become `Except.error`:
a field whose `in` tag value is empty aborts with the
`missing tag` error naming the field and the operation; a field whose
codec cannot be resolved aborts with the transformer error.  Otherwise
the field lands in the request body (lazily creating
`NewRequestBody("", true)`, merging runtime doc lines as an `allOf`
with a description-only fragment, attaching under the codec's
content-type name) or as a parameter in its location; `path` parameters
are always required, the others are required iff not omit-empty.  A tag
value outside the five locations falls through the switch and adds
nothing.  The `switch location` body for one field that passed the tag
and codec checks is split out as `scanField`. -/
def scanField (hasDocer : Bool) (f : StructField) (codecName : String)
    (op : Operation) : Operation :=
  let location := (tagValueAndFlagsByTagString f.inTag).1
  let schema := f.schema
  if location = "body" then
    let reqBody :=
      match op.requestBody with
      | some rb => rb
      | none => { description := "", required := true, content := [] }
    let s :=
      if hasDocer then
        match f.doc with
        | some lines =>
          let ds := JSONSchema.descOnly (String.intercalate "\n" lines)
          match schema with
          | none => some ds
          | some sch => some (JSONSchema.allOf sch ds)
        | none => schema
      else schema
    let rb1 : RequestBody :=
      { reqBody with
        content := mapSet reqBody.content codecName { schema := s } }
    { op with requestBody := some rb1 }
  else if location = "query" then
    { op with parameters := op.parameters ++
        [{ In := "query", name := f.displayName, schema := schema,
           required := !f.omitempty }] }
  else if location = "cookie" then
    { op with parameters := op.parameters ++
        [{ In := "cookie", name := f.displayName, schema := schema,
           required := !f.omitempty }] }
  else if location = "header" then
    { op with parameters := op.parameters ++
        [{ In := "header", name := f.displayName, schema := schema,
           required := !f.omitempty }] }
  else if location = "path" then
    { op with parameters := op.parameters ++
        [{ In := "path", name := f.displayName, schema := schema,
           required := true }] }
  else op

def scanParameterOrRequestBody (hasDocer : Bool) (fields : List StructField)
    (op : Operation) : Except String Operation :=
  match fields with
  | [] => .ok op
  | f :: rest =>
    let location := (tagValueAndFlagsByTagString f.inTag).1
    if location = "" then
      .error ("missing tag `in` for " ++ f.name ++ " of " ++ op.operationId)
    else
      match f.codec with
      | none => .error ("failed to create transformer for " ++ f.name)
      | some codecName =>
        scanParameterOrRequestBody hasDocer rest (scanField hasDocer f codecName op)

/-- Modelled from the spec: a sentinel error as converted by the
error-to-status collaborator (`statuserror.FromErr`, not under `src/`):
a status code, a human-readable summary, and the schema the external
extractor derives for the error's type. -/
structure Err where
  status : Int
  summary : String
  schema : JSONSchema
deriving DecidableEq

/-- a terminal operator's optional response capabilities
(`courierhttp.MethodDescriber`, `CanResponseStatusCode`,
`CanResponseContentType`, `CanResponseContent`, `CanResponseErrors`).
`responseContent = some none` models an implementation whose
`ResponseContent()` returns nil; `some (some sch)` a non-nil payload
type with its derived schema. -/
structure Operator where
  methodCap : Option String
  responseStatusCode : Option Int
  responseContentType : Option String
  responseContent : Option (Option JSONSchema)
  responseErrors : Option (List Err)
deriving DecidableEq

/-- the Go loop `codes[e.StatusCode()] = append(codes[e.StatusCode()],
e.Summary())`: append the summary to the entry for the status, adding
the entry on first appearance. -/
def addSummary (m : List (Int × List String)) (c : Int) (s : String) :
    List (Int × List String) :=
  match m with
  | [] => [(c, [s])]
  | kv :: rest =>
    if kv.1 = c then (kv.1, kv.2 ++ [s]) :: rest
    else kv :: addSummary rest c s

/-- the `codes` map of `scanResponse`, grouped summaries keyed by
converted status code.  (The Go map iterates in unspecified order; the
model fixes first-appearance order, and no proved claim depends on the
order of the emitted entries.) -/
def groupByStatus (errs : List Err) : List (Int × List String) :=
  errs.foldl (fun m e => addSummary m e.status e.summary) []

/-- the extra error responses of `scanResponse` (`part_000` lines
243–267): one per distinct converted status code, schema always from
`returnErrors[0]`, extension `x-status-returnErrors` carrying the
grouped summaries. -/
def errorResponses (errs : List Err) : List (Int × Response) :=
  (groupByStatus errs).map fun g =>
    (g.1,
      { content := [("application/json", { schema := (errs.head?).map Err.schema })],
        extensions := [("x-status-returnErrors", g.2)] })

/-- `scanner.scanResponse` (`part_000` lines 202–269) as the ordered
list of `op.AddResponse` calls it makes.  With no method capability
(or a capability reporting the empty method) it returns before
recording anything; otherwise the success response (status defaulted by
verb, overridable; content type defaulted to `application/json`,
overridable; content from the payload capability, an empty media type
without one, nothing for a nil payload) is followed by the grouped
error responses. -/
def scanResponse (o : Operator) : List (Int × Response) :=
  match o.methodCap with
  | none => []
  | some m =>
    if m = "" then []
    else
      let statusCode0 : Int := if m = "POST" then 201 else 200
      let statusCode := o.responseStatusCode.getD statusCode0
      let contentType := o.responseContentType.getD "application/json"
      let resp : Response :=
        match o.responseContent with
        | some rt =>
          match rt with
          | some sch =>
            { content := [(contentType, { schema := some sch })], extensions := [] }
          | none => { content := [], extensions := [] }
        | none =>
          { content := [(contentType, { schema := none })], extensions := [] }
      (statusCode, resp) :: (o.responseErrors.map errorResponses).getD []

end OpenapiScan

/-! ## Lemmas and claim theorems for the response dispatcher -/

namespace Courierhttp

lemma adoptStatusCap_contentType (resp : Option Value) (r : RespState) :
    (adoptStatusCap resp r).contentType = r.contentType := by
  rcases resp with _ | w
  · rfl
  · rcases h : w.statusCap with _ | s <;> simp [adoptStatusCap, h]

lemma inferStatus_contentType (resp : Option Value) (req : Req) (r : RespState) :
    (inferStatus resp req r).contentType = r.contentType := by
  rcases resp with _ | w <;> simp [inferStatus] <;> split_ifs <;> rfl

lemma adoptRedirect_contentType (resp : Option Value) (r : RespState) :
    (adoptRedirect resp r).contentType = r.contentType := by
  rcases resp with _ | w
  · simp [adoptRedirect]
  · simp only [adoptRedirect]
    split_ifs with h
    · rcases h1 : w.statusCap with _ | s <;> rcases h2 : w.locationCap with _ | l <;> simp
    · rfl

lemma finalStep_body_shape (resp : Option Value) (r : RespState) :
    ∀ hdr b, finalStep resp r = .body hdr b →
      (hdr = if r.contentType = "" then none else some r.contentType) ∧
      ∀ s mm, b = .encode s mm → mm = r.contentType := by
  intro hdr b hfin
  unfold finalStep at hfin
  repeat' split at hfin
  all_goals try simp_all
  all_goals (rcases hfin with ⟨h1, h2⟩; subst h2; intro s mm he; simp_all)

lemma finalStep_statusOut (resp : Option Value) (r : RespState) :
    (finalStep resp r).statusOut = some r.statusCode := by
  rcases resp with _ | w <;> unfold finalStep <;> repeat' split
  all_goals simp_all [FinalStep.statusOut, BodyStep.status]

lemma dispatch_snd_v (resp : Option Value) (r : RespState) (req : Req) :
    (dispatch resp r req).2.v = none := rfl

lemma dispatch_contentType_inv (resp : Option Value) (r : RespState) (req : Req) :
    (adoptRedirect resp (inferStatus resp req (adoptStatusCap resp r))).contentType
      = r.contentType := by
  rw [adoptRedirect_contentType, inferStatus_contentType, adoptStatusCap_contentType]

lemma dispatch_body_shape (resp : Option Value) (r : RespState) (req : Req) :
    ∀ hdr b, (dispatch resp r req).1.final = .body hdr b →
      (hdr = if r.contentType = "" then none else some r.contentType) ∧
      ∀ s mm, b = .encode s mm → mm = r.contentType := by
  intro hdr b hfin
  have h := finalStep_body_shape resp
    (adoptRedirect resp (inferStatus resp req (adoptStatusCap resp r))) hdr b hfin
  rwa [dispatch_contentType_inv] at h

lemma dispatch_ctCap_congr (w : Value) (ct1 ct2 : Option String)
    (r : RespState) (req : Req) :
    dispatch (some { w with contentTypeCap := ct1 }) r req
      = dispatch (some { w with contentTypeCap := ct2 }) r req := rfl

lemma dispatch_state_v_congr (resp : Option Value) (v1 v2 : Option Value)
    (meta : List (String × List String)) (cookies : List (Option Cookie))
    (loc : Option String) (ct : String) (sc : Int) (req : Req) :
    dispatch resp ⟨v1, meta, cookies, loc, ct, sc⟩ req
      = dispatch resp ⟨v2, meta, cookies, loc, ct, sc⟩ req := by
  rcases loc with _ | l <;> by_cases hsc : sc = 0 <;>
    by_cases hm : req.method = "POST" <;> rcases resp with _ | w <;>
    (try rcases h1 : w.statusCap with _ | s) <;>
    (try rcases h2 : w.locationCap with _ | l2) <;>
    (try by_cases hs0 : s = 0) <;>
    simp_all [dispatch, adoptStatusCap, inferStatus, adoptRedirect, finalStep]

/-- C1 counterexample: an envelope built with `Wrap` and an explicit
`WithStatusCode(202)` wrapping a non-error value whose `StatusCode()`
capability reports 500 is dispatched with status 500, not the explicit
202 — `WriteResponse` adopts the capability's status unconditionally
(`payload.go` line 184 has no `statusCode == 0` guard), so the claim
that the explicit status always wins is false at this input. -/
theorem C1_explicit_status_cex :
    ((WriteResponse
        (Wrap (some { isResponseWriter := false, isError := false,
                      statusCap := some 500, locationCap := none,
                      contentTypeCap := none, isResult := false, isReader := false,
                      errStatus := 0, errSummary := "" })
              [Setting.statusCode 202])
        { method := "GET" }).1.final.statusOut = some 500)
    ∧ (500 : Int) ≠ 202 := by
  refine ⟨by decide, by decide⟩

/-- C1 (amended): for every non-responder wrapped value, error or not,
the explicitly set content type always wins — dispatch never infers
one: any `Content-Type` header it writes, and the MIME handed to the
codec, are exactly the envelope's explicit content type — and the last
`WithContentType`/`WithStatusCode` in the configuration list is the one
stored.  The explicitly set status code, however, wins only when the
(error-converted) wrapped value exposes no `StatusCode()` capability:
a non-error value exposing the capability (with a nonzero status) and
no redirect has that status adopted unconditionally, replacing any
explicit status; and an error value is always converted to a status
error exposing its mapped status, so its (nonzero) mapped status
likewise replaces any explicit status. -/
theorem C1_explicit_overrides_amended :
    ∀ (r : RespState) (req : Req) (w : Value),
      r.v = some w → w.isResponseWriter = false →
      ((w.isError = false → ∀ s, w.statusCap = some s → s ≠ 0 →
          w.locationCap = none →
          ((WriteResponse r req).1.final).statusOut = some s)
       ∧ (w.isError = false → w.statusCap = none → r.statusCode ≠ 0 →
          ((WriteResponse r req).1.final).statusOut = some r.statusCode)
       ∧ (w.isError = true → w.errStatus ≠ 0 →
          ((WriteResponse r req).1.final).statusOut = some w.errStatus)
       ∧ (∀ hdr b, (WriteResponse r req).1.final = .body hdr b →
          hdr = if r.contentType = "" then none else some r.contentType)
       ∧ (∀ hdr s mm, (WriteResponse r req).1.final = .body hdr (.encode s mm) →
          mm = r.contentType)
       ∧ (∀ v opts ct0, (Wrap v (opts ++ [Setting.contentType ct0])).contentType = ct0)
       ∧ (∀ v opts sc0, (Wrap v (opts ++ [Setting.statusCode sc0])).statusCode = sc0)) := by
  intro r req w hv hrw
  rcases r with ⟨rv, meta, cookies, loc, ct, sc⟩
  have hv' : rv = some w := hv
  subst hv'
  have hwr : WriteResponse ⟨some w, meta, cookies, loc, ct, sc⟩ req
      = dispatch (some (converted w)) ⟨some w, meta, cookies, loc, ct, sc⟩ req := by
    simp [WriteResponse, hrw]
  refine ⟨?_, ?_, ?_, ?_, ?_, ?_, ?_⟩
  · intro he s hs hs0 hl
    rw [hwr]
    simp [converted, he, dispatch, finalStep_statusOut, adoptStatusCap,
      inferStatus, adoptRedirect, hs, hs0, hl]
  · intro he hs hsc
    rw [hwr]
    simp only [RespState.statusCode] at hsc
    simp [converted, he, dispatch, finalStep_statusOut, adoptStatusCap,
      inferStatus, adoptRedirect, hs, hsc]
  · intro he hes
    rw [hwr]
    simp [converted, he, fromErr, dispatch, finalStep_statusOut,
      adoptStatusCap, inferStatus, adoptRedirect, hes]
  · intro hdr b hfin
    rw [hwr] at hfin
    exact (dispatch_body_shape (some (converted w)) _ req hdr b hfin).1
  · intro hdr s mm hfin
    rw [hwr] at hfin
    exact (dispatch_body_shape (some (converted w)) _ req hdr _ hfin).2 s mm rfl
  · intro v opts ct0
    simp [Wrap, List.foldl_append, applySetting]
  · intro v opts sc0
    simp [Wrap, List.foldl_append, applySetting]

/-- C1 witness: with no status capability on a non-error value, the
explicit status 202 survives dispatch; and a wrapped error whose mapped
status is 503 dispatches 503 even with an explicit 202 set. -/
theorem C1_explicit_overrides_witness :
    ((WriteResponse
        { v := some { isResponseWriter := false, isError := false,
                      statusCap := none, locationCap := none,
                      contentTypeCap := none, isResult := false, isReader := false,
                      errStatus := 0, errSummary := "" },
          meta := [], cookies := [], location := none,
          contentType := "application/json", statusCode := 202 }
        { method := "GET" }).1.final).statusOut = some 202
    ∧ ((WriteResponse
        { v := some { isResponseWriter := false, isError := true,
                      statusCap := none, locationCap := none,
                      contentTypeCap := none, isResult := false, isReader := false,
                      errStatus := 503, errSummary := "unavailable" },
          meta := [], cookies := [], location := none,
          contentType := "application/json", statusCode := 202 }
        { method := "GET" }).1.final).statusOut = some 503 := by
  constructor
  · exact (C1_explicit_overrides_amended
      { v := some { isResponseWriter := false, isError := false,
                    statusCap := none, locationCap := none,
                    contentTypeCap := none, isResult := false, isReader := false,
                    errStatus := 0, errSummary := "" },
        meta := [], cookies := [], location := none,
        contentType := "application/json", statusCode := 202 }
      { method := "GET" }
      { isResponseWriter := false, isError := false,
        statusCap := none, locationCap := none,
        contentTypeCap := none, isResult := false, isReader := false,
        errStatus := 0, errSummary := "" }
      rfl rfl).2.1 rfl rfl (by decide)
  · exact (C1_explicit_overrides_amended
      { v := some { isResponseWriter := false, isError := true,
                    statusCap := none, locationCap := none,
                    contentTypeCap := none, isResult := false, isReader := false,
                    errStatus := 503, errSummary := "unavailable" },
        meta := [], cookies := [], location := none,
        contentType := "application/json", statusCode := 202 }
      { method := "GET" }
      { isResponseWriter := false, isError := true,
        statusCap := none, locationCap := none,
        contentTypeCap := none, isResult := false, isReader := false,
        errStatus := 503, errSummary := "unavailable" }
      rfl rfl).2.2.1 rfl (by decide)

/-- C2: a wrapped non-error value exposing no status-code capability
(hence no redirect capability either), with no explicit status set
(statusCode 0), resolves to 201 on POST and 200 on any other method
when non-nil, and to 204 when the wrapped value is nil.  (A value that
is a complete self-describing responder is delegated to in step 1
before any resolution, so the envelope here wraps a non-responder.) -/
theorem C2_inferred_status :
    ∀ (meta : List (String × List String)) (cookies : List (Option Cookie))
      (loc : Option String) (ct : String) (lc vct : Option String)
      (res rd : Bool) (es : Int) (sm m : String),
    ((WriteResponse
        { v := some { isResponseWriter := false, isError := false,
                      statusCap := none, locationCap := lc,
                      contentTypeCap := vct, isResult := res, isReader := rd,
                      errStatus := es, errSummary := sm },
          meta := meta, cookies := cookies, location := loc,
          contentType := ct, statusCode := 0 }
        { method := m }).1.final.statusOut
      = some (if m = "POST" then 201 else 200))
    ∧ ((WriteResponse
        { v := none, meta := meta, cookies := cookies, location := loc,
          contentType := ct, statusCode := 0 }
        { method := m }).1.final.statusOut = some 204) := by
  intro meta cookies loc ct lc vct res rd es sm m
  constructor
  · by_cases hm : m = "POST" <;>
      simp [WriteResponse, converted, dispatch, finalStep_statusOut,
        adoptStatusCap, inferStatus, adoptRedirect, hm]
  · simp [WriteResponse, dispatch, finalStep_statusOut,
      adoptStatusCap, inferStatus, adoptRedirect]

/-- C3: with no explicit location set, a non-error, non-responder value
implementing both `StatusCode()` and `Location()` (that is, the
`RedirectDescriber` capability — which in Go embeds the plain
status-code capability, so both name one `StatusCode` method) makes
`WriteResponse` issue a redirect with exactly that status and location;
the outcome is the `redirected` step, never a body-writing step, for
every explicit status, method, and value shape. -/
theorem C3_redirect_capability :
    ∀ (meta : List (String × List String)) (cookies : List (Option Cookie))
      (ct : String) (sc : Int) (vct : Option String) (res rd : Bool)
      (es : Int) (sm : String) (s : Int) (l m : String),
    (WriteResponse
        { v := some { isResponseWriter := false, isError := false,
                      statusCap := some s, locationCap := some l,
                      contentTypeCap := vct, isResult := res, isReader := rd,
                      errStatus := es, errSummary := sm },
          meta := meta, cookies := cookies, location := none,
          contentType := ct, statusCode := sc }
        { method := m }).1.final = .redirected s l := by
  intro meta cookies ct sc vct res rd es sm s l m
  by_cases hs : s = 0 <;> by_cases hm : m = "POST" <;>
    simp [WriteResponse, converted, dispatch, finalStep,
      adoptStatusCap, inferStatus, adoptRedirect, hs, hm]

/-- C4: for every envelope and request, after `WriteResponse` returns —
delegation, redirect, bare 204, or body write, with the failing
encode/copy cases included since the release is a deferred statement
that runs on every path — the internal wrapped value is nil, so a
subsequent `Underlying` read observes no value. -/
theorem C4_release_after_dispatch :
    ∀ (r : RespState) (req : Req),
      (WriteResponse r req).2.v = none ∧ Underlying (WriteResponse r req).2 = none := by
  intro r req
  rcases r with ⟨_ | w, meta, cookies, loc, ct, sc⟩
  · exact ⟨rfl, rfl⟩
  · by_cases hw : w.isResponseWriter <;>
      simp [WriteResponse, Underlying, hw, dispatch_snd_v, dispatch]

/-- C10: `WriteResponse` never consults the wrapped value's
`ContentType()` capability — two envelopes identical except for that
capability dispatch identically; with no explicit content type the
body step writes no `Content-Type` header; and the MIME handed to the
codec is always exactly the envelope's explicit content type. -/
theorem C10_content_type_not_consulted :
    ∀ (w : Value) (ct1 ct2 : Option String)
      (meta : List (String × List String)) (cookies : List (Option Cookie))
      (loc : Option String) (ct : String) (sc : Int) (req : Req),
      (WriteResponse
          { v := some { w with contentTypeCap := ct1 }, meta := meta,
            cookies := cookies, location := loc, contentType := ct,
            statusCode := sc } req
        = WriteResponse
          { v := some { w with contentTypeCap := ct2 }, meta := meta,
            cookies := cookies, location := loc, contentType := ct,
            statusCode := sc } req)
      ∧ (∀ hdr b,
          (WriteResponse
            { v := some { w with contentTypeCap := ct1 }, meta := meta,
              cookies := cookies, location := loc, contentType := "",
              statusCode := sc } req).1.final = .body hdr b → hdr = none)
      ∧ (∀ hdr s mm,
          (WriteResponse
            { v := some { w with contentTypeCap := ct1 }, meta := meta,
              cookies := cookies, location := loc, contentType := ct,
              statusCode := sc } req).1.final = .body hdr (.encode s mm) →
            mm = ct) := by
  intro w ct1 ct2 meta cookies loc ct sc req
  have hbody : ∀ (w' : Value) (ct' : String) (hdr : Option String) (b : BodyStep),
      (WriteResponse
        { v := some w', meta := meta, cookies := cookies, location := loc,
          contentType := ct', statusCode := sc } req).1.final = .body hdr b →
      (hdr = if ct' = "" then none else some ct') ∧
      ∀ s mm, b = .encode s mm → mm = ct' := by
    intro w' ct' hdr b hfin
    by_cases hw : w'.isResponseWriter
    · simp [WriteResponse, hw] at hfin
    · simp only [WriteResponse, hw, Bool.false_eq_true, if_false] at hfin
      simpa using dispatch_body_shape (some (converted w')) _ req hdr b hfin
  refine ⟨?_, ?_, ?_⟩
  · by_cases hw : w.isResponseWriter
    · simp [WriteResponse, hw]
    · by_cases herr : w.isError
      · simp only [WriteResponse]
        simp only [converted]
        simp only [hw, herr, Bool.false_eq_true, if_false, if_true]
        simp only [fromErr]
        exact dispatch_state_v_congr _ _ _ meta cookies loc ct sc req
      · simp only [WriteResponse]
        simp only [converted]
        simp only [hw, herr, Bool.false_eq_true, if_false]
        exact (dispatch_state_v_congr _ _ _ meta cookies loc ct sc req).trans
          (dispatch_ctCap_congr _ ct1 ct2 _ req)
  · intro hdr b hfin
    simpa using (hbody _ "" hdr b hfin).1
  · intro hdr s mm hfin
    exact (hbody _ ct hdr _ hfin).2 s mm rfl

/-- C10 witness: at a concrete envelope with explicit content type
`application/json` and a value whose `ContentType()` would say
`text/css`, the codec MIME is the explicit `application/json`. -/
theorem C10_content_type_witness :
    ("application/json" : String) = "application/json" := by
  exact (C10_content_type_not_consulted
    { isResponseWriter := false, isError := false, statusCap := none,
      locationCap := none, contentTypeCap := some "text/css", isResult := false,
      isReader := false, errStatus := 0, errSummary := "" }
    (some "text/html") none [] [] none "application/json" 7 { method := "GET" }).2.2
    (some "application/json") 7 "application/json" (by decide)

end Courierhttp

/-! ## Lemmas and claim theorems for the document scanner -/

namespace OpenapiScan

lemma any_key_iff (m : List (String × JSONSchema)) (n : String) :
    (m.any fun kv => kv.1 = n) = true ↔ lookupSchema m n ≠ none := by
  induction m with
  | nil => simp [lookupSchema]
  | cons kv rest ih =>
    by_cases h : kv.1 = n
    · simp [lookupSchema, List.find?_cons, h]
    · simp only [List.any_cons, Bool.or_eq_true, decide_eq_true_eq]
      simp only [lookupSchema, List.find?_cons, h, decide_False] at ih ⊢
      simp [h, ih, lookupSchema]

lemma lookupSchema_register (m : List (String × JSONSchema)) (ref : String)
    (s : JSONSchema) (n : String) :
    lookupSchema (RegisterSchema m ref s) n
      = if schemaNameOf ref = n ∧ lookupSchema m n = none then some s
        else lookupSchema m n := by
  simp only [RegisterSchema]
  by_cases hreg : (m.any fun kv => kv.1 = schemaNameOf ref) = true
  · rw [if_pos hreg]
    have hsome := (any_key_iff m (schemaNameOf ref)).1 hreg
    by_cases hn : schemaNameOf ref = n
    · subst hn
      simp [hsome]
    · simp [hn]
  · rw [if_neg hreg]
    have hnone : lookupSchema m (schemaNameOf ref) = none := by
      by_contra hc
      exact hreg ((any_key_iff m (schemaNameOf ref)).2 hc)
    simp only [lookupSchema, List.find?_append]
    by_cases hn : schemaNameOf ref = n
    · subst hn
      have hfind : m.find? (fun kv => decide (kv.1 = schemaNameOf ref)) = none := by
        simp only [lookupSchema] at hnone
        exact Option.map_eq_none'.1 hnone
      simp [hfind, List.find?, lookupSchema, hnone]
    · rcases hfind : m.find? (fun kv => decide (kv.1 = n)) with _ | kv
      · simp [hfind, List.find?, hn]
      · simp [hfind, hn]

lemma registerAll_go (regs : List (String × JSONSchema))
    (acc : List (String × JSONSchema)) (n : String) :
    lookupSchema (regs.foldl (fun m r => RegisterSchema m r.1 r.2) acc) n
      = match lookupSchema acc n with
        | some s => some s
        | none => (regs.find? (fun r => schemaNameOf r.1 = n)).map (fun r => r.2) := by
  induction regs generalizing acc with
  | nil =>
    rcases h : lookupSchema acc n with _ | s <;> simp [h]
  | cons r rest ih =>
    simp only [List.foldl_cons]
    rw [ih, lookupSchema_register]
    rcases h : lookupSchema acc n with _ | s
    · by_cases hn : schemaNameOf r.1 = n
      · simp [hn, h, List.find?_cons]
      · simp [hn, h, List.find?_cons]
    · simp [h]

lemma addSummary_keys_mem (m : List (Int × List String)) (c : Int) (s : String)
    (c' : Int) :
    c' ∈ (addSummary m c s).map Prod.fst ↔ (c' ∈ m.map Prod.fst ∨ c' = c) := by
  induction m with
  | nil => simp [addSummary]
  | cons kv rest ih =>
    by_cases h : kv.1 = c
    · simp [addSummary, h]
      tauto
    · simp [addSummary, h, ih]
      tauto

lemma addSummary_keys_nodup (m : List (Int × List String)) (c : Int) (s : String)
    (hm : (m.map Prod.fst).Nodup) : ((addSummary m c s).map Prod.fst).Nodup := by
  induction m with
  | nil => simp [addSummary]
  | cons kv rest ih =>
    by_cases h : kv.1 = c
    · simpa [addSummary, h] using hm
    · simp only [List.map_cons, List.nodup_cons] at hm
      have := ih hm.2
      simp only [addSummary, h, if_false]
      simp only [List.map_cons, List.nodup_cons]
      refine ⟨?_, this⟩
      intro hmem
      rcases (addSummary_keys_mem rest c s kv.1).1 hmem with h1 | h1
      · exact hm.1 h1
      · exact h h1

lemma addSummary_find (m : List (Int × List String)) (c : Int) (s : String)
    (c' : Int) :
    ((addSummary m c s).find? (fun g => g.1 = c')).map Prod.snd
      = if c' = c then
          some (((m.find? (fun g => g.1 = c)).map Prod.snd).getD [] ++ [s])
        else ((m.find? (fun g => g.1 = c')).map Prod.snd) := by
  induction m with
  | nil =>
    by_cases h : c' = c
    · simp [addSummary, List.find?_cons, h]
    · simp [addSummary, List.find?_cons, h, Ne.symm h]
  | cons kv rest ih =>
    by_cases h : kv.1 = c
    · subst h
      by_cases h' : c' = kv.1
      · subst h'
        simp [addSummary, List.find?_cons]
      · simp [addSummary, List.find?_cons, h', Ne.symm h']
    · by_cases h' : c' = kv.1
      · subst h'
        simp [addSummary, h, List.find?_cons, Ne.symm h]
      · simp [addSummary, h, List.find?_cons, Ne.symm h', ih]

lemma groupFold_keys_mem (errs : List Err) (m : List (Int × List String)) (c : Int) :
    (c ∈ (errs.foldl (fun m e => addSummary m e.status e.summary) m).map Prod.fst)
      ↔ (c ∈ m.map Prod.fst ∨ ∃ e ∈ errs, e.status = c) := by
  induction errs generalizing m with
  | nil => simp
  | cons e rest ih =>
    simp only [List.foldl_cons]
    rw [ih]
    rw [addSummary_keys_mem]
    constructor
    · rintro (⟨h1 | h1⟩ | ⟨e', he', hs⟩)
      · exact Or.inl h1
      · exact Or.inr ⟨e, by simp, h1.symm⟩
      · exact Or.inr ⟨e', by simp [he'], hs⟩
    · rintro (h1 | ⟨e', he', hs⟩)
      · exact Or.inl (Or.inl h1)
      · rcases List.mem_cons.1 he' with rfl | he''
        · exact Or.inl (Or.inr hs.symm)
        · exact Or.inr ⟨e', he'', hs⟩

lemma groupFold_keys_nodup (errs : List Err) (m : List (Int × List String))
    (hm : (m.map Prod.fst).Nodup) :
    ((errs.foldl (fun m e => addSummary m e.status e.summary) m).map Prod.fst).Nodup := by
  induction errs generalizing m with
  | nil => simpa
  | cons e rest ih =>
    simp only [List.foldl_cons]
    exact ih _ (addSummary_keys_nodup m e.status e.summary hm)

lemma groupFold_find (errs : List Err) (m : List (Int × List String)) (c : Int) :
    (((errs.foldl (fun m e => addSummary m e.status e.summary) m).find?
        (fun g => g.1 = c)).map Prod.snd)
      = match (m.find? (fun g => g.1 = c)).map Prod.snd with
        | some ss => some (ss ++ (errs.filter (fun e => e.status = c)).map Err.summary)
        | none =>
          if errs.any (fun e => e.status = c) then
            some ((errs.filter (fun e => e.status = c)).map Err.summary)
          else none := by
  induction errs generalizing m with
  | nil =>
    rcases h : (m.find? (fun g => g.1 = c)).map Prod.snd with _ | ss <;> simp [h]
  | cons e rest ih =>
    simp only [List.foldl_cons]
    rw [ih]
    rw [addSummary_find]
    by_cases hc : e.status = c
    · rw [if_pos hc.symm]
      simp only [hc]
      rcases h : (m.find? (fun g => g.1 = c)).map Prod.snd with _ | ss <;>
        simp [h, hc, List.filter_cons, List.any_cons]
    · rw [if_neg (fun hx => hc hx.symm)]
      rcases h : (m.find? (fun g => g.1 = c)).map Prod.snd with _ | ss <;>
        simp [h, hc, List.filter_cons, List.any_cons]

lemma find_of_mem_keys_nodup (m : List (Int × List String))
    (g : Int × List String) (hnd : (m.map Prod.fst).Nodup) (hg : g ∈ m) :
    m.find? (fun x => x.1 = g.1) = some g := by
  induction m with
  | nil => cases hg
  | cons kv rest ih =>
    simp only [List.map_cons, List.nodup_cons] at hnd
    rcases List.mem_cons.1 hg with rfl | hg'
    · simp [List.find?_cons]
    · have hne : ¬kv.1 = g.1 := by
        intro he
        exact hnd.1 (he ▸ List.mem_map_of_mem Prod.fst hg')
      simp [List.find?_cons, hne, ih hnd.2 hg']

lemma errorResponses_keys (errs : List Err) :
    (errorResponses errs).map Prod.fst = (groupByStatus errs).map Prod.fst := by
  simp [errorResponses, List.map_map]

lemma scanField_operationId (hasDocer : Bool) (f : StructField)
    (codecName : String) (op : Operation) :
    (scanField hasDocer f codecName op).operationId = op.operationId := by
  simp only [scanField]
  split_ifs <;> rfl

/-- C5: if an operator input type's fields, in declaration order, first
process cleanly (each earlier field has a nonempty `in` tag value and a
resolvable codec) and then hit a field whose `in` tag value is empty,
`scanParameterOrRequestBody` aborts at that field — the result is an
error carrying both the field name and the operation id, never a
(partial) operation — regardless of what follows the offending field. -/
theorem C5_missing_location_tag :
    ∀ (hasDocer : Bool) (pre : List StructField) (f : StructField)
      (post : List StructField) (op : Operation),
      (∀ g ∈ pre, (tagValueAndFlagsByTagString g.inTag).1 ≠ "" ∧ g.codec ≠ none) →
      (tagValueAndFlagsByTagString f.inTag).1 = "" →
      scanParameterOrRequestBody hasDocer (pre ++ f :: post) op
        = .error ("missing tag `in` for " ++ f.name ++ " of " ++ op.operationId) := by
  intro hasDocer pre f post
  induction pre with
  | nil =>
    intro op h ht
    simp [scanParameterOrRequestBody, ht]
  | cons g pre' ih =>
    intro op h ht
    obtain ⟨hg1, hg2⟩ := h g (by simp)
    rcases hcodec : g.codec with _ | cname
    · exact absurd hcodec hg2
    · simp only [List.cons_append, scanParameterOrRequestBody, hcodec, hg1,
        if_false, List.append_eq]
      rw [ih _ (fun g' hg' => h g' (List.mem_cons_of_mem _ hg')) ht]
      rw [scanField_operationId]

/-- C5 witness: a well-tagged `path` field followed by a field with no
`in` tag aborts the scan with the error naming field and operation. -/
theorem C5_missing_location_tag_witness :
    scanParameterOrRequestBody false
      [ { name := "ID", displayName := "id", omitempty := false, inTag := "path",
          mimeTag := "", codec := some "application/json", schema := none,
          doc := none },
        { name := "Bad", displayName := "bad", omitempty := false, inTag := "",
          mimeTag := "", codec := some "application/json", schema := none,
          doc := none } ]
      { operationId := "GetThing", tags := [], parameters := [],
        requestBody := none, responses := [] }
      = .error ("missing tag `in` for " ++ "Bad" ++ " of " ++ "GetThing") := by
  exact C5_missing_location_tag false
    [ { name := "ID", displayName := "id", omitempty := false, inTag := "path",
        mimeTag := "", codec := some "application/json", schema := none,
        doc := none } ]
    { name := "Bad", displayName := "bad", omitempty := false, inTag := "",
      mimeTag := "", codec := some "application/json", schema := none,
      doc := none }
    []
    { operationId := "GetThing", tags := [], parameters := [],
      requestBody := none, responses := [] }
    (by decide) (by decide)

lemma splitOnSlash_ne_nil : ∀ l : List Char, splitOnSlash l ≠ [] := by
  intro l
  cases l with
  | nil => simp [splitOnSlash]
  | cons c cs =>
    simp only [splitOnSlash]
    by_cases hc : c = '/'
    · simp [hc]
    · simp only [hc, if_false]
      rcases h : splitOnSlash cs with _ | ⟨h1, t1⟩ <;> simp

lemma splitOnSlash_shape : ∀ l : List Char,
    ∃ t, splitOnSlash l = l.takeWhile (fun d => d != '/') :: t
      ∧ ((l.dropWhile (fun d => d != '/') = [] ∧ t = [])
         ∨ (∃ l', l.dropWhile (fun d => d != '/') = '/' :: l'
              ∧ t = splitOnSlash l')) := by
  intro l
  induction l with
  | nil => exact ⟨[], by simp [splitOnSlash], Or.inl (by simp)⟩
  | cons c cs ih =>
    by_cases hc : c = '/'
    · subst hc
      refine ⟨splitOnSlash cs, ?_, Or.inr ⟨cs, ?_, rfl⟩⟩
      · simp [splitOnSlash, List.takeWhile_cons]
      · simp [List.dropWhile_cons]
    · rcases ih with ⟨t, hsp, hdrop⟩
      refine ⟨t, ?_, ?_⟩
      · simp only [splitOnSlash, hc, if_false, hsp]
        simp [List.takeWhile_cons, hc]
      · rcases hdrop with ⟨h1, h2⟩ | ⟨l', h1, h2⟩
        · exact Or.inl ⟨by simp [List.dropWhile_cons, hc, h1], h2⟩
        · exact Or.inr ⟨l', by simp [List.dropWhile_cons, hc, h1], h2⟩

lemma joinSlash_cons (a : List Char) (ys : List (List Char)) (h : ys ≠ []) :
    joinSlash (a :: ys) = a ++ '/' :: joinSlash ys := by
  rcases ys with _ | ⟨y, ys'⟩
  · exact absurd rfl h
  · rfl

lemma joinSlash_cons_cons (c : Char) (h : List Char) (ys : List (List Char)) :
    joinSlash ((c :: h) :: ys) = c :: joinSlash (h :: ys) := by
  rcases ys with _ | ⟨y, ys'⟩ <;> simp [joinSlash]

lemma splitOnSlash_slash_cons (l : List Char) :
    splitOnSlash ('/' :: l) = [] :: splitOnSlash l := by
  simp [splitOnSlash]

lemma splitOnSlash_nonslash_cons (c : Char) (l : List Char) (hc : c ≠ '/')
    (h : List Char) (t : List (List Char)) (hsp : splitOnSlash l = h :: t) :
    splitOnSlash (c :: l) = (c :: h) :: t := by
  simp [splitOnSlash, hc, hsp]

lemma rewriteSegment_first_nomatch (op : Operation) (m : Char) (rest : List Char)
    (h : ¬(m = ':' ∨ m = '*') ∨ rest.takeWhile (fun d => d != '/') = []) :
    rewriteSegment op (List.takeWhile (fun d => d != '/') (m :: rest))
      = List.takeWhile (fun d => d != '/') (m :: rest) := by
  by_cases hm' : m = '/'
  · simp [List.takeWhile_cons, hm', rewriteSegment]
  · simp only [List.takeWhile_cons, bne_iff_ne, ne_eq, hm', not_false_eq_true,
      decide_True, if_true]
    rcases htw : rest.takeWhile (fun d => d != '/') with _ | ⟨c', cs'⟩
    · simp [rewriteSegment]
    · rcases h with h | h
      · simp [rewriteSegment, h]
      · rw [htw] at h
        cases h

lemma patchPathChars_eq_segments (op : Operation) :
    ∀ (n : Nat) (l : List Char), l.length ≤ n →
      patchPathChars op l = patchSegmentsChars op l := by
  intro n
  induction n with
  | zero =>
    intro l hl
    have hle : l = [] := List.length_eq_zero.1 (Nat.le_zero.1 hl)
    subst hle
    simp [patchPathChars, patchSegmentsChars, splitOnSlash, joinSlash]
  | succ n ih =>
    intro l hl
    rcases l with _ | ⟨c, l1⟩
    · simp [patchPathChars, patchSegmentsChars, splitOnSlash, joinSlash]
    rcases l1 with _ | ⟨m, rest⟩
    · by_cases hc : c = '/'
      · subst hc
        simp [patchPathChars, patchSegmentsChars, splitOnSlash, joinSlash,
          rewriteSegment]
      · simp [patchPathChars, patchSegmentsChars, splitOnSlash, joinSlash, hc]
    · obtain ⟨T, hsp, hdropT⟩ := splitOnSlash_shape (m :: rest)
      have hlen : (m :: rest).length ≤ n := by
        simp only [List.length_cons] at hl ⊢
        omega
      have hPSrec : patchSegmentsChars op (m :: rest)
          = joinSlash (List.takeWhile (fun d => d != '/') (m :: rest)
              :: T.map (rewriteSegment op)) := by
        simp only [patchSegmentsChars, hsp]
      by_cases hc : c = '/'
      · subst hc
        have hPSfull : patchSegmentsChars op ('/' :: m :: rest)
            = '/' :: joinSlash
                (rewriteSegment op (List.takeWhile (fun d => d != '/') (m :: rest))
                  :: T.map (rewriteSegment op)) := by
          simp only [patchSegmentsChars, splitOnSlash_slash_cons, hsp,
            List.map_cons]
          rw [joinSlash_cons _ _ (by simp)]
          simp
        by_cases hmatch : (m = ':' ∨ m = '*') ∧ rest.takeWhile (fun d => d != '/') ≠ []
        · -- the regex matches here: a slash, a marker, a nonempty name
          obtain ⟨hm, hname⟩ := hmatch
          have hm' : m ≠ '/' := by
            rcases hm with h | h <;> subst h <;> decide
          rcases htw : rest.takeWhile (fun d => d != '/') with _ | ⟨c', cs'⟩
          · exact absurd htw hname
          have htwm : List.takeWhile (fun d => d != '/') (m :: rest)
              = m :: c' :: cs' := by
            simp [List.takeWhile_cons, hm', htw]
          have hdm : List.dropWhile (fun d => d != '/') (m :: rest)
              = List.dropWhile (fun d => d != '/') rest := by
            simp [List.dropWhile_cons, hm']
          have hrw : rewriteSegment op
              (List.takeWhile (fun d => d != '/') (m :: rest))
              = if isParameterDefined op ((c' :: cs').asString) then
                  '\x7b' :: ((c' :: cs') ++ ['\x7d'])
                else ['0'] := by
            rw [htwm]
            simp [rewriteSegment, hm]
          have hLHS : patchPathChars op ('/' :: m :: rest)
              = (if isParameterDefined op ((c' :: cs').asString) then
                  '/' :: '\x7b' :: ((c' :: cs') ++ ['\x7d'])
                 else ['/', '0'])
                ++ patchPathChars op (rest.dropWhile (fun d => d != '/')) := by
            simp [patchPathChars, hm, htw]
          rcases hdropT with ⟨hd1, hd2⟩ | ⟨l', hd1, hd2⟩
          · -- nothing follows the matched segment
            have hdr : rest.dropWhile (fun d => d != '/') = [] := by
              rw [← hdm]; exact hd1
            subst hd2
            rw [hLHS, hdr, hPSfull, hrw]
            cases hdef : isParameterDefined op ((c' :: cs').asString) <;>
              simp [patchPathChars, joinSlash, hdef]
          · -- a further slash follows; scanning resumes there
            have hdr : rest.dropWhile (fun d => d != '/') = '/' :: l' := by
              rw [← hdm]; exact hd1
            have hlen' : ('/' :: l').length ≤ n := by
              have hsub := (List.dropWhile_sublist (l := rest)
                (fun d => d != '/')).length_le
              rw [hdr] at hsub
              simp only [List.length_cons] at hsub hl ⊢
              omega
            have hne : (splitOnSlash l').map (rewriteSegment op) ≠ [] := by
              intro hx
              exact splitOnSlash_ne_nil l' (List.map_eq_nil_iff.1 hx)
            have hRHSrec : patchSegmentsChars op ('/' :: l')
                = '/' :: joinSlash ((splitOnSlash l').map (rewriteSegment op)) := by
              simp only [patchSegmentsChars, splitOnSlash_slash_cons]
              rcases hsp' : splitOnSlash l' with _ | ⟨h1, t1⟩
              · exact absurd hsp' (splitOnSlash_ne_nil l')
              · rw [← hsp']
                rw [joinSlash_cons _ _ hne]
                simp
            rw [hLHS, hdr, ih _ hlen', hRHSrec, hPSfull, hrw]
            subst hd2
            rw [joinSlash_cons _ _ hne]
            cases hdef : isParameterDefined op ((c' :: cs').asString) <;>
              simp [hdef]
        · -- a slash with no match: the following segment is kept
          have hnm : ¬(m = ':' ∨ m = '*')
              ∨ rest.takeWhile (fun d => d != '/') = [] := by
            by_cases h1 : (m = ':' ∨ m = '*')
            · right
              by_contra h2
              exact hmatch ⟨h1, h2⟩
            · exact Or.inl h1
          have hLHS : patchPathChars op ('/' :: m :: rest)
              = '/' :: patchPathChars op (m :: rest) := by
            simp only [patchPathChars]
            rw [if_neg]
            intro hcond
            apply hmatch
            refine ⟨hcond.2.1, hcond.2.2⟩
          rw [hLHS, ih _ hlen, hPSrec, hPSfull,
            rewriteSegment_first_nomatch op m rest hnm]
      · -- a non-slash character extends the first segment
        have hLHS : patchPathChars op (c :: m :: rest)
            = c :: patchPathChars op (m :: rest) := by
          simp [patchPathChars, hc]
        have hPS : patchSegmentsChars op (c :: m :: rest)
            = c :: joinSlash (List.takeWhile (fun d => d != '/') (m :: rest)
                :: T.map (rewriteSegment op)) := by
          simp only [patchSegmentsChars,
            splitOnSlash_nonslash_cons c (m :: rest) hc _ _ hsp]
          rw [joinSlash_cons_cons]
        rw [hLHS, ih _ hlen, hPSrec, hPS]

/-- C6: for every route path, `patchPath` performs exactly the claim's
segment-wise rewrite (`patchPathSegmentwise`): a segment in router
syntax (`:` or `*` marker plus a bare nonempty name) becomes the
brace-delimited `/{name}` exactly when the operation declares a path
parameter of that exact name, the fixed literal `/0` otherwise, and
every other segment is kept.  Additionally shown for the path
`/users/:id/orders/*rest` over every possible parameter list, and in
particular, with only `id` declared as a path parameter, the emitted
path is `/users/{id}/orders/0`. -/
theorem C6_path_translation :
    (∀ (openapiPath : String) (op : Operation),
      patchPath openapiPath op = patchPathSegmentwise openapiPath op)
    ∧ (∀ (op : Operation),
      patchPath "/users/:id/orders/*rest" op
        = "/users" ++ (if isParameterDefined op "id" then "/\x7bid\x7d" else "/0")
          ++ "/orders"
          ++ (if isParameterDefined op "rest" then "/\x7brest\x7d" else "/0"))
    ∧ patchPath "/users/:id/orders/*rest"
        { operationId := "getOrders", tags := [], requestBody := none,
          responses := [],
          parameters := [{ In := "path", name := "id", schema := none,
                           required := true }] }
        = "/users/\x7bid\x7d/orders/0" := by
  refine ⟨?_, ?_, ?_⟩
  · intro openapiPath op
    simp only [patchPath, patchPathSegmentwise]
    rw [patchPathChars_eq_segments op openapiPath.toList.length
      openapiPath.toList le_rfl]
  · intro op
    have h1 : (['i', 'd'].asString : String) = "id" := rfl
    have h2 : (['r', 'e', 's', 't'].asString : String) = "rest" := rfl
    cases hid : isParameterDefined op "id" <;>
      cases hrest : isParameterDefined op "rest" <;>
      simp [patchPath, patchPathChars, h1, h2, hid, hrest] <;> decide
  · simp [patchPath, patchPathChars, isParameterDefined]
    decide

/-- C7: after any sequence of registrations into an empty registry, the
entry under a name is exactly the schema of the earliest registration
whose computed name matches — later registrations under the same name
are dropped — and registration is total (it returns a registry, never
an error), which the statement exhibits by evaluating `registerAll` on
every input. -/
theorem C7_first_registration_wins :
    ∀ (regs : List (String × JSONSchema)) (n : String),
      lookupSchema (registerAll regs) n
        = ((regs.find? (fun r => schemaNameOf r.1 = n)).map (fun r => r.2)) := by
  intro regs n
  rw [registerAll, registerAll_go]
  simp [lookupSchema]

/-- C8: the extra error responses are exactly one per distinct converted
status code (keys are distinct, and a status appears among them iff
some declared error maps to it); each entry's schema is the first
error's schema and its extension lists every summary mapped to that
code, in declaration order; and the concrete three-error example (two
mapping to 404, one to 500) yields exactly two entries, 404 listing
both summaries, 500 listing one. -/
theorem C8_error_response_grouping :
    (∀ (errs : List Err),
      ((errorResponses errs).map Prod.fst).Nodup
      ∧ (∀ c : Int, c ∈ (errorResponses errs).map Prod.fst ↔ c ∈ errs.map Err.status)
      ∧ (∀ (c : Int) (r : Response), (c, r) ∈ errorResponses errs →
          r = { content := [("application/json",
                  { schema := (errs.head?).map Err.schema })],
                extensions := [("x-status-returnErrors",
                  (errs.filter (fun e => e.status = c)).map Err.summary)] }))
    ∧ ((errorResponses
          [⟨404, "not_found_a", .structural 1⟩, ⟨404, "not_found_b", .structural 2⟩,
           ⟨500, "internal", .structural 3⟩]).length = 2
       ∧ (404, ({ content := [("application/json", { schema := some (.structural 1) })],
                  extensions := [("x-status-returnErrors",
                    ["not_found_a", "not_found_b"])] } : Response))
           ∈ errorResponses
              [⟨404, "not_found_a", .structural 1⟩, ⟨404, "not_found_b", .structural 2⟩,
               ⟨500, "internal", .structural 3⟩]
       ∧ (500, ({ content := [("application/json", { schema := some (.structural 1) })],
                  extensions := [("x-status-returnErrors", ["internal"])] } : Response))
           ∈ errorResponses
              [⟨404, "not_found_a", .structural 1⟩, ⟨404, "not_found_b", .structural 2⟩,
               ⟨500, "internal", .structural 3⟩]) := by
  constructor
  · intro errs
    have hnd : ((groupByStatus errs).map Prod.fst).Nodup := by
      have := groupFold_keys_nodup errs [] (by simp)
      simpa [groupByStatus] using this
    refine ⟨?_, ?_, ?_⟩
    · rw [errorResponses_keys]
      exact hnd
    · intro c
      rw [errorResponses_keys]
      have hmem := groupFold_keys_mem errs [] c
      simp only [List.map_nil, List.not_mem_nil, false_or] at hmem
      rw [show (groupByStatus errs)
            = errs.foldl (fun m e => addSummary m e.status e.summary) [] from rfl]
      rw [hmem]
      simp only [List.mem_map]
    · intro c r hmem
      simp only [errorResponses, List.mem_map] at hmem
      rcases hmem with ⟨g, hg, heq⟩
      have hc : g.1 = c := congrArg Prod.fst heq
      have hr := congrArg Prod.snd heq
      simp only at hc hr
      subst hc
      rw [← hr]
      have hfind : (groupByStatus errs).find? (fun x => x.1 = g.1) = some g :=
        find_of_mem_keys_nodup _ g hnd hg
      have hval := groupFold_find errs [] g.1
      rw [show (errs.foldl (fun m e => addSummary m e.status e.summary) [])
            = groupByStatus errs from rfl, hfind] at hval
      cases hany : errs.any (fun e => e.status = g.1) with
      | false =>
        rw [hany] at hval
        simp at hval
      | true =>
        rw [hany] at hval
        simp at hval
        rw [hval]
  · refine ⟨by decide, by decide, by decide⟩

/-- C8 witness: the 404 entry of the concrete example carries, by the
theorem applied at that membership, the first error's schema and the
two grouped summaries. -/
theorem C8_error_response_grouping_witness :
    ({ content := [("application/json", { schema := some (JSONSchema.structural 1) })],
       extensions := [("x-status-returnErrors", ["not_found_a", "not_found_b"])] }
      : Response)
      = { content := [("application/json",
            { schema := (([⟨404, "not_found_a", JSONSchema.structural 1⟩,
                           ⟨404, "not_found_b", JSONSchema.structural 2⟩,
                           ⟨500, "internal", JSONSchema.structural 3⟩]
                          : List Err).head?).map Err.schema })],
          extensions := [("x-status-returnErrors",
            (([⟨404, "not_found_a", JSONSchema.structural 1⟩,
               ⟨404, "not_found_b", JSONSchema.structural 2⟩,
               ⟨500, "internal", JSONSchema.structural 3⟩]
              : List Err).filter (fun e => e.status = 404)).map Err.summary)] } := by
  exact (C8_error_response_grouping.1
    [⟨404, "not_found_a", JSONSchema.structural 1⟩,
     ⟨404, "not_found_b", JSONSchema.structural 2⟩,
     ⟨500, "internal", JSONSchema.structural 3⟩]).2.2 404
    { content := [("application/json", { schema := some (JSONSchema.structural 1) })],
      extensions := [("x-status-returnErrors", ["not_found_a", "not_found_b"])] }
    (by decide)

/-- C9: an operator with no HTTP-verb (method) capability produces no
response entry at all from `scanResponse`, whatever the status-code,
content-type, content and errors capabilities say. -/
theorem C9_no_method_no_response :
    ∀ (sc : Option Int) (ct : Option String) (cc : Option (Option JSONSchema))
      (ce : Option (List Err)),
      scanResponse { methodCap := none, responseStatusCode := sc,
                     responseContentType := ct, responseContent := cc,
                     responseErrors := ce } = [] := by
  intro sc ct cc ce
  rfl

end OpenapiScan
